import Mathlib

/-
Verification of the go-git-fs repository: a read-only filesystem view of a
git snapshot (package gitfs).  The development shallowly embeds the
filesystem adapter (Tree.Open, NewFileInfo, NewFile, Object.ReadDir,
Object.Read) together with the parts of its go-git collaborators that the
adapter's behaviour depends on (filemode.ToOSFileMode, object.Tree.FindEntry,
path.Clean / Base / Join, the object store and the history traversal).
Machine integers are modelled as Nat / Int, Go errors as an explicit error
type, fallible calls as Except.
-/

namespace Gitfs

/-- Go error values relevant to the adapter: the sentinel errors it compares
against (fs.ErrNotExist, fs.ErrPermission, io.EOF, object.ErrEntryNotFound,
object.ErrFileNotFound, object.ErrDirectoryNotFound, plumbing's
object-not-found and revision errors) and a catch-all for fmt.Errorf-style
errors.  errors.Is on sentinels is equality of constructors. -/
inductive GoError where
  | notExist
  | permission
  | eof
  | entryNotFound
  | fileNotFound
  | directoryNotFound
  | objectNotFound
  | revisionNotFound
  | other (msg : String)
deriving DecidableEq, Repr

/-- go-git filemode.FileMode: the entry modes a git tree can record. -/
inductive FileMode where
  | empty
  | dir
  | regular
  | deprecated
  | executable
  | symlink
  | submodule
deriving DecidableEq, Repr

/-- os.ModeDir bit of Go's io/fs.FileMode (1 <<< 31). -/
def modeDir : Nat := 2 ^ 31

/-- os.ModeSymlink bit of Go's io/fs.FileMode (1 <<< 27). -/
def modeSymlink : Nat := 2 ^ 27

/-- os.ModePerm (0o777). -/
def modePerm : Nat := 0o777

/-- go-git filemode.FileMode.ToOSFileMode: translate a git entry mode to io/fs
mode bits; Empty (and anything else) is a malformed mode error. -/
def toOSFileMode : FileMode → Except GoError Nat
  | .dir => .ok (modePerm + modeDir)
  | .submodule => .ok (modePerm + modeDir)
  | .regular => .ok 0o644
  | .deprecated => .ok 0o644
  | .executable => .ok 0o755
  | .symlink => .ok (modePerm + modeSymlink)
  | .empty => .error (.other "malformed mode")

/-- Content hash identifying an object in the store (plumbing.Hash). -/
abbrev Hash := Nat

/-- One (name, mode, hash) entry of a git tree object (object.TreeEntry). -/
structure TreeEntry where
  name : String
  mode : FileMode
  hash : Hash
deriving DecidableEq, Repr

/-- Author / committer signature of a commit; only the timestamp is consumed
by the adapter (Signature.When), modelled as an integer clock value. -/
structure Signature where
  when : Int
deriving DecidableEq, Repr

/-- A commit produced by the history traversal; the adapter reads
c.Author.When (and fs.go's older variant read c.Committer.When). -/
structure Commit where
  author : Signature
  committer : Signature
deriving DecidableEq, Repr

instance {ε α : Type} [DecidableEq ε] [DecidableEq α] :
    DecidableEq (Except ε α) := fun a b =>
  match a, b with
  | .ok x, .ok y =>
    if h : x = y then .isTrue (by rw [h])
    else .isFalse (fun hh => h (Except.ok.inj hh))
  | .error x, .error y =>
    if h : x = y then .isTrue (by rw [h])
    else .isFalse (fun hh => h (Except.error.inj hh))
  | .ok _, .error _ => .isFalse (fun hh => Except.noConfusion hh)
  | .error _, .ok _ => .isFalse (fun hh => Except.noConfusion hh)

/-- A decoded object of the content-addressed store, as returned by
object.GetObject: a tree (ordered child entries), a commit (only its root
tree hash is consumed by the adapter), a blob (declared size plus the result
of v.Reader(), which may itself fail), or some other kind (e.g. an annotated
tag), which the adapter rejects. -/
inductive GitObject where
  | tree (entries : List TreeEntry)
  | commit (treeHash : Hash)
  | blob (size : Int) (reader : Except GoError (List UInt8))
  | tag
deriving DecidableEq, Repr

/-- git.LogOptions as consumed by repo.Log: the traversal start commit, the
optional PathFilter predicate, and the optional FileName exact-path filter. -/
structure LogOptions where
  fromC : Hash
  pathFilter : Option (String → Bool) := none
  fileName : Option String := none

/-- The two external collaborators (spec section 6): content-addressed object
retrieval (object.GetObject over repo.Storer) and the history traversal.
logFirst models repo.Log(&opt) followed by one it.Next() and it.Close(): it
yields the first commit of the filtered most-recent-first traversal, or the
error of either step (io.EOF when the traversal yields no commits). -/
structure Repo where
  getObject : Hash → Except GoError GitObject
  logFirst : LogOptions → Except GoError Commit

/-- Typed tree retrieval (storer.EncodedObject(plumbing.TreeObject, h) plus
Decode, as done by go-git's Tree.dir and Commit.Tree): a non-tree object at
the hash surfaces as plumbing's object-not-found error. -/
def getTree (repo : Repo) (h : Hash) : Except GoError (List TreeEntry) :=
  match repo.getObject h with
  | .ok (.tree es) => .ok es
  | .ok _ => .error .objectNotFound
  | .error e => .error e

namespace Path

/-- strings.Split of a character list at a separator character: Go's
strings.Split(s, sep) for a one-character sep; never returns an empty list. -/
def splitChar (c : Char) : List Char → List (List Char)
  | [] => [[]]
  | x :: xs =>
    if x = c then [] :: splitChar c xs
    else
      match splitChar c xs with
      | [] => [[x]]
      | g :: gs => (x :: g) :: gs

/-- Lexical segment processing of Go's path.Clean: drop empty and dot
segments, resolve dotdot against the stack (keeping it for relative paths
that escape, discarding it at a root).  The accumulator holds the kept
segments in reverse. -/
def cleanSegsAux (rooted : Bool) : List String → List String → List String
  | acc, [] => acc.reverse
  | acc, seg :: rest =>
    if seg = "" ∨ seg = "." then cleanSegsAux rooted acc rest
    else if seg = ".." then
      match acc with
      | [] => if rooted then cleanSegsAux rooted [] rest
              else cleanSegsAux rooted [".."] rest
      | top :: acc' =>
        if top = ".." then cleanSegsAux rooted (".." :: top :: acc') rest
        else cleanSegsAux rooted acc' rest
    else cleanSegsAux rooted (seg :: acc) rest

/-- Join segments with slashes (no leading or trailing separator). -/
def joinSegsSlash : List String → String
  | [] => ""
  | s :: rest => rest.foldl (fun a b => a ++ "/" ++ b) s

/-- Go's path.Clean: shortest lexical equivalent of a slash-separated path;
the empty path cleans to the dot. -/
def clean (name : String) : String :=
  if name = "" then "."
  else
    let rooted : Bool :=
      match name.toList with
      | '/' :: _ => true
      | _ => false
    let segs := (splitChar '/' name.toList).map (fun l => String.mk l)
    let core := cleanSegsAux rooted [] segs
    if rooted then "/" ++ joinSegsSlash core
    else if core = [] then "." else joinSegsSlash core

/-- Go's path.Base: last element of the path after stripping trailing
slashes; the empty path gives the dot, an all-slash path gives the root. -/
def base (name : String) : String :=
  if name = "" then "."
  else
    let rev := name.toList.reverse
    let rev' := rev.dropWhile (fun c => c = '/')
    if rev' = [] then "/"
    else String.mk ((rev'.takeWhile (fun c => c ≠ '/')).reverse)

/-- Go's path.Join on two elements: empty elements contribute nothing, the
result is cleaned; Join of two empty strings is empty. -/
def join2 (a b : String) : String :=
  if a = "" ∧ b = "" then ""
  else if a = "" then clean b
  else clean (a ++ "/" ++ b)

end Path

/-- Go's strings.HasPrefix(s, pre). -/
def goStartsWith (s pre : String) : Bool :=
  pre.toList.isPrefixOf s.toList

/-- Lookup of one name among a tree's entries (go-git Tree.entry via the
name map built by buildMap, where a duplicate name keeps the last entry);
a missing name is object.ErrEntryNotFound. -/
def treeEntryLookup (entries : List TreeEntry) (baseName : String) :
    Except GoError TreeEntry :=
  match (entries.filter (fun e => e.name == baseName)).getLast? with
  | some e => .ok e
  | none => .error .entryNotFound

/-- go-git Tree.dir: resolve a child name to a subtree.  A missing entry is
object.ErrDirectoryNotFound; the typed tree retrieval errors pass through. -/
def treeDir (repo : Repo) (entries : List TreeEntry) (baseName : String) :
    Except GoError (List TreeEntry) :=
  match treeEntryLookup entries baseName with
  | .error _ => .error .directoryNotFound
  | .ok entry => getTree repo entry.hash

/-- The walking loop of go-git Tree.FindEntry over the already-split path:
descend through subtrees for every segment but the last, then look the last
segment up in the final tree.  (go-git's tree-path cache only memoizes
repeated walks and is semantically transparent, so it is omitted.  The empty
segment list cannot arise from strings.Split.) -/
def findEntrySegs (repo : Repo) :
    List TreeEntry → List String → Except GoError TreeEntry
  | _, [] => .error .entryNotFound
  | entries, [baseName] => treeEntryLookup entries baseName
  | entries, p :: rest =>
    match treeDir repo entries p with
    | .error e => .error e
    | .ok sub => findEntrySegs repo sub rest

/-- go-git object.Tree.FindEntry: split the path on slashes and walk. -/
def findEntry (repo : Repo) (entries : List TreeEntry) (path : String) :
    Except GoError TreeEntry :=
  findEntrySegs repo entries
    ((Path.splitChar '/' path.toList).map (fun l => String.mk l))

/-- The monolithic entry Object of the adapter: works as a File, DirEntry and
FileInfo.  r is the open content stream (nil for the light form and for
directories, modelled as the remaining byte list when open); te is the
directory iteration cursor (nil for the light form and for files). -/
structure Object where
  commit : Hash
  hash : Hash
  repo : Repo
  fullName : String
  mode : Nat
  size : Int
  isDir : Bool
  modTime : Int
  r : Option (List UInt8)
  te : List TreeEntry

/-- The git.LogOptions value built by NewFileInfo and NewFile: traversal
starts From the snapshot's commit; a directory entry gets a PathFilter
testing strings.HasPrefix(s, fullName) unless fullName is the root dot, in
which case no filter is set; a file entry gets FileName = the full name. -/
def logOptionsFor (commit : Hash) (isDir : Bool) (fullName : String) :
    LogOptions :=
  { fromC := commit
    pathFilter :=
      if isDir ∧ fullName ≠ "." then some (fun s => goStartsWith s fullName)
      else none
    fileName := if isDir then none else some fullName }

/-- The type switch of NewFileInfo over the fetched object: size and
is-directory flag per object kind; the blob reader is not touched; any other
kind is the cannot-get-file-info error. -/
def fileInfoParts : GitObject → Except GoError (Int × Bool)
  | .tree _ => .ok (0, true)
  | .commit _ => .ok (0, true)
  | .blob sz _ => .ok (sz, false)
  | .tag => .error (.other "cannot get file info from object")

/-- The type switch of NewFile over the fetched object: additionally keeps
the tree's child entries (for a commit, those of its root tree, fetched via
Commit.Tree) and opens the blob's content stream via v.Reader(). -/
def fileParts (repo : Repo) :
    GitObject →
      Except GoError (Int × Bool × Option (List UInt8) × List TreeEntry)
  | .tree es => .ok (0, true, none, es)
  | .commit th =>
    match getTree repo th with
    | .error e => .error e
    | .ok es => .ok (0, true, none, es)
  | .blob sz rdr =>
    match rdr with
    | .error e => .error e
    | .ok bs => .ok (sz, false, some bs, [])
  | .tag => .error (.other "cannot get file info from object")

/-- gitfs.NewFileInfo: the light, metadata-only constructor.  Mode
translation, object fetch and classification, then one history lookup whose
first commit's author timestamp becomes the modification time; stream and
cursor stay nil. -/
def NewFileInfo (commit : Hash) (hash : Hash) (repo : Repo)
    (fullName : String) (mode : FileMode) : Except GoError Object :=
  toOSFileMode mode >>= fun osMode =>
  repo.getObject hash >>= fun obj =>
  fileInfoParts obj >>= fun si =>
  repo.logFirst (logOptionsFor commit si.2 fullName) >>= fun c =>
  .ok { commit := commit, hash := hash, repo := repo, fullName := fullName
        mode := osMode, size := si.1, isDir := si.2
        modTime := c.author.when, r := none, te := [] }

/-- gitfs.NewFile: the heavy constructor; same metadata derivation as
NewFileInfo but additionally populates the content stream (files) or the
child-entry cursor (directories). -/
def NewFile (commit : Hash) (hash : Hash) (repo : Repo)
    (fullName : String) (mode : FileMode) : Except GoError Object :=
  toOSFileMode mode >>= fun osMode =>
  repo.getObject hash >>= fun obj =>
  fileParts repo obj >>= fun parts =>
  repo.logFirst (logOptionsFor commit parts.2.1 fullName) >>= fun c =>
  .ok { commit := commit, hash := hash, repo := repo, fullName := fullName
        mode := osMode, size := parts.1, isDir := parts.2.1
        modTime := c.author.when, r := parts.2.2.1, te := parts.2.2.2 }

/-- gitfs.Tree: the fs.FS snapshot handle: the resolved commit hash, the
repository collaborators, and the commit's root tree entries. -/
structure Tree where
  hash : Hash
  repo : Repo
  tree : List TreeEntry

/-- gitfs.Tree.Open: a name cleaning to the dot denotes the root and is
materialized from the commit hash itself with the directory mode; any other
name is resolved by FindEntry on the raw name, mapping the entry-not-found
and file-not-found sentinels to fs.ErrNotExist and passing every other error
through; the entry is then built by NewFile on the cleaned name. -/
def Tree.Open (tree : Tree) (name : String) : Except GoError Object :=
  if Path.clean name = "." then
    NewFile tree.hash tree.hash tree.repo (Path.clean name) .dir
  else
    match findEntry tree.repo tree.tree name with
    | .error e =>
      if e = .entryNotFound ∨ e = .fileNotFound then .error .notExist
      else .error e
    | .ok f => NewFile tree.hash f.hash tree.repo (Path.clean name) f.mode

/-- Object.Stat returns the object itself (it is its own FileInfo). -/
def Object.Stat (o : Object) : Except GoError Object := .ok o

/-- Object.Name: path.Base of the full logical name. -/
def Object.Name (o : Object) : String := Path.base o.fullName

/-- The count of cursor entries one ReadDir call consumes: all of them when
n is negative or exceeds what remains, otherwise n. -/
def readLimit (len : Nat) (n : Int) : Nat :=
  if n < 0 ∨ (len : Int) < n then len else n.toNat

/-- The materialization loop of Object.ReadDir: each consumed child entry is
built by the light constructor on the joined path, left to right, aborting
at the first failing child with its error (the Go loop returns nil then). -/
def childrenInfos (commit : Hash) (repo : Repo) (dirName : String) :
    List TreeEntry → Except GoError (List Object)
  | [] => .ok []
  | v :: vs =>
    NewFileInfo commit v.hash repo (Path.join2 dirName v.name) v.mode >>=
      fun fi =>
    childrenInfos commit repo dirName vs >>= fun rest =>
    .ok (fi :: rest)

/-- gitfs.Object.ReadDir: fs.ErrPermission on a non-directory; io.EOF when
the cursor is empty; otherwise slice the consumed prefix off the cursor
first (the state update happens before materialization) and materialize it.
The pair returns the Go (result, receiver-after-call). -/
def Object.ReadDir (o : Object) (n : Int) :
    Except GoError (List Object) × Object :=
  if o.isDir = false then (.error .permission, o)
  else if o.te.isEmpty then (.error .eof, o)
  else
    let cnt := readLimit o.te.length n
    let o' : Object := { o with te := o.te.drop cnt }
    match childrenInfos o.commit o.repo o.fullName (o.te.take cnt) with
    | .ok ret => (.ok ret, o')
    | .error e => (.error e, o')

/-- gitfs.Object.Read with an n-byte buffer: fs.ErrPermission on a
directory; otherwise delegate to the open stream (io.EOF at its end; a nil
stream, which panics in Go, is modelled as an error). -/
def Object.Read (o : Object) (n : Nat) :
    Except GoError (List UInt8) × Object :=
  if o.isDir then (.error .permission, o)
  else
    match o.r with
    | some bs =>
      if bs = [] ∧ n ≠ 0 then (.error .eof, o)
      else (.ok (bs.take n), { o with r := some (bs.drop n) })
    | none => (.error (.other "nil ReadCloser"), o)

/-- A caller-side sequence of ReadDir calls on one handle, one maxCount per
call, threading the handle state and concatenating the successfully returned
batches (a failed call contributes no entries). -/
def runReadDir (o : Object) : List Int → List Object × Object
  | [] => ([], o)
  | n :: ns =>
    let p := o.ReadDir n
    let q := runReadDir p.2 ns
    ((match p.1 with | .ok l => l | .error _ => []) ++ q.1, q.2)

/-- Directory-likeness of a fetched store object (spec: tree or commit). -/
def isDirLike : Except GoError GitObject → Bool
  | .ok (.tree _) => true
  | .ok (.commit _) => true
  | _ => false

/-- Whether an Except result is a success. -/
def okB {ε α : Type} : Except ε α → Bool
  | .ok _ => true
  | .error _ => false

/-- Child entries of the example snapshot's root tree. -/
def exEntries : List TreeEntry :=
  [⟨"a.go", .regular, 11⟩, ⟨"docs", .dir, 12⟩]

/-- Child entries of the docs subtree of the example snapshot. -/
def exDocsEntries : List TreeEntry := [⟨"readme.md", .regular, 13⟩]

/-- The commit every history query of the example repository yields first:
authored at clock 100, committed at clock 200. -/
def exCommit : Commit := ⟨⟨100⟩, ⟨200⟩⟩

/-- Object store of the example repository: commit 1 roots tree 2, which
holds blob 11 (content abc) and tree 12; tree 12 holds blob 13; every other
hash is absent. -/
def exStore (h : Hash) : Except GoError GitObject :=
  if h = 1 then .ok (.commit 2)
  else if h = 2 then .ok (.tree exEntries)
  else if h = 11 then .ok (.blob 3 (.ok [97, 98, 99]))
  else if h = 12 then .ok (.tree exDocsEntries)
  else if h = 13 then .ok (.blob 2 (.ok [104, 105]))
  else .error .objectNotFound

/-- The example repository: the store above plus a history traversal whose
first result is always exCommit. -/
def exRepo : Repo := ⟨exStore, fun _ => .ok exCommit⟩

/-- The example snapshot handle, rooted at commit 1. -/
def exTree : Tree := ⟨1, exRepo, exEntries⟩

/-- The entry Open("a.go") materializes on the example snapshot. -/
def oA : Object :=
  { commit := 1, hash := 11, repo := exRepo, fullName := "a.go"
    mode := 0o644, size := 3, isDir := false, modTime := 100
    r := some [97, 98, 99], te := [] }

/-- The light entry NewFileInfo materializes for a.go. -/
def aL : Object :=
  { commit := 1, hash := 11, repo := exRepo, fullName := "a.go"
    mode := 0o644, size := 3, isDir := false, modTime := 100
    r := none, te := [] }

/-- The light entry NewFileInfo materializes for docs. -/
def docsL : Object :=
  { commit := 1, hash := 12, repo := exRepo, fullName := "docs"
    mode := modePerm + modeDir, size := 0, isDir := true, modTime := 100
    r := none, te := [] }

/-- The entry Open("docs") materializes on the example snapshot. -/
def docsH : Object :=
  { commit := 1, hash := 12, repo := exRepo, fullName := "docs"
    mode := modePerm + modeDir, size := 0, isDir := true, modTime := 100
    r := none, te := exDocsEntries }

/-- The entry Open(".") materializes on the example snapshot: note its hash
is the commit hash 1, not the commit's tree hash 2. -/
def rootObj : Object :=
  { commit := 1, hash := 1, repo := exRepo, fullName := "."
    mode := modePerm + modeDir, size := 0, isDir := true, modTime := 100
    r := none, te := exEntries }

/-- A directory handle whose first cursor entry points at hash 50, which is
absent from the example store, so its materialization fails. -/
def oBad : Object :=
  { commit := 1, hash := 2, repo := exRepo, fullName := "."
    mode := modePerm + modeDir, size := 0, isDir := true, modTime := 100
    r := none, te := [⟨"x", .regular, 50⟩, ⟨"a.go", .regular, 11⟩] }

/-- Inverting a successful Except bind. -/
theorem eBind_ok {ε α β : Type} {x : Except ε α} {f : α → Except ε β} {b : β}
    (h : x >>= f = .ok b) : ∃ a, x = .ok a ∧ f a = .ok b := by
  cases x with
  | ok a => exact ⟨a, rfl, h⟩
  | error e => simp [Bind.bind, Except.bind] at h

/-- What a successful light construction says about the produced entry:
every field is determined by the inputs, the fetched object and the first
commit of the history query, and neither the stream nor the cursor is
populated. -/
theorem newFileInfo_ok {cm h : Hash} {repo : Repo} {fn : String}
    {md : FileMode} {o : Object}
    (hh : NewFileInfo cm h repo fn md = .ok o) :
    o.commit = cm ∧ o.hash = h ∧ o.repo = repo ∧ o.fullName = fn ∧
    toOSFileMode md = .ok o.mode ∧
    o.isDir = isDirLike (repo.getObject h) ∧
    Except.map (fun c => c.author.when)
      (repo.logFirst (logOptionsFor cm o.isDir fn)) = .ok o.modTime ∧
    (o.isDir = true → o.size = 0) ∧
    (o.isDir = false →
      ∃ sz rdr, repo.getObject h = .ok (.blob sz rdr) ∧ o.size = sz) ∧
    o.r = none ∧ o.te = [] := by
  unfold NewFileInfo at hh
  obtain ⟨osMode, h1, hh⟩ := eBind_ok hh
  obtain ⟨obj, h2, hh⟩ := eBind_ok hh
  obtain ⟨si, h3, hh⟩ := eBind_ok hh
  obtain ⟨c, h4, hh⟩ := eBind_ok hh
  have ho : o = { commit := cm, hash := h, repo := repo, fullName := fn
                  mode := osMode, size := si.1, isDir := si.2
                  modTime := c.author.when, r := none, te := [] } :=
    (Except.ok.inj hh).symm
  subst ho
  cases obj with
  | tree es =>
    simp only [fileInfoParts, Except.ok.injEq] at h3
    subst h3
    refine ⟨rfl, rfl, rfl, rfl, h1, ?_, ?_, fun _ => rfl, ?_, rfl, rfl⟩
    · rw [h2]; rfl
    · simp only [h4, Except.map]
    · intro hfalse; exact absurd hfalse (by simp)
  | commit th =>
    simp only [fileInfoParts, Except.ok.injEq] at h3
    subst h3
    refine ⟨rfl, rfl, rfl, rfl, h1, ?_, ?_, fun _ => rfl, ?_, rfl, rfl⟩
    · rw [h2]; rfl
    · simp only [h4, Except.map]
    · intro hfalse; exact absurd hfalse (by simp)
  | blob sz rdr =>
    simp only [fileInfoParts, Except.ok.injEq] at h3
    subst h3
    refine ⟨rfl, rfl, rfl, rfl, h1, ?_, ?_, ?_, fun _ => ⟨sz, rdr, h2, rfl⟩,
      rfl, rfl⟩
    · rw [h2]; rfl
    · simp only [h4, Except.map]
    · intro htrue; exact absurd htrue (by simp)
  | tag => simp [fileInfoParts] at h3

/-- What a successful heavy construction says about the produced entry:
same stat-level determination as the light form, plus the stream and cursor
population per object kind. -/
theorem newFile_ok {cm h : Hash} {repo : Repo} {fn : String}
    {md : FileMode} {o : Object}
    (hh : NewFile cm h repo fn md = .ok o) :
    o.commit = cm ∧ o.hash = h ∧ o.repo = repo ∧ o.fullName = fn ∧
    toOSFileMode md = .ok o.mode ∧
    o.isDir = isDirLike (repo.getObject h) ∧
    Except.map (fun c => c.author.when)
      (repo.logFirst (logOptionsFor cm o.isDir fn)) = .ok o.modTime ∧
    (o.isDir = true → o.size = 0 ∧ o.r = none) ∧
    (o.isDir = false →
      ∃ sz rdr, repo.getObject h = .ok (.blob sz rdr) ∧ o.size = sz) := by
  unfold NewFile at hh
  obtain ⟨osMode, h1, hh⟩ := eBind_ok hh
  obtain ⟨obj, h2, hh⟩ := eBind_ok hh
  obtain ⟨parts, h3, hh⟩ := eBind_ok hh
  obtain ⟨c, h4, hh⟩ := eBind_ok hh
  have ho : o = { commit := cm, hash := h, repo := repo, fullName := fn
                  mode := osMode, size := parts.1, isDir := parts.2.1
                  modTime := c.author.when, r := parts.2.2.1
                  te := parts.2.2.2 } :=
    (Except.ok.inj hh).symm
  subst ho
  cases obj with
  | tree es =>
    simp only [fileParts, Except.ok.injEq] at h3
    subst h3
    refine ⟨rfl, rfl, rfl, rfl, h1, ?_, ?_, fun _ => ⟨rfl, rfl⟩, ?_⟩
    · rw [h2]; rfl
    · simp only [h4, Except.map]
    · intro hfalse; exact absurd hfalse (by simp)
  | commit th =>
    simp only [fileParts] at h3
    cases hg : getTree repo th with
    | error e => rw [hg] at h3; exact absurd h3 (by simp)
    | ok es =>
      rw [hg] at h3
      simp only [Except.ok.injEq] at h3
      subst h3
      refine ⟨rfl, rfl, rfl, rfl, h1, ?_, ?_, fun _ => ⟨rfl, rfl⟩, ?_⟩
      · rw [h2]; rfl
      · simp only [h4, Except.map]
      · intro hfalse; exact absurd hfalse (by simp)
  | blob sz rdr =>
    simp only [fileParts] at h3
    cases hr : rdr with
    | error e => rw [hr] at h3; exact absurd h3 (by simp)
    | ok bs =>
      rw [hr] at h3
      simp only [Except.ok.injEq] at h3
      subst h3
      refine ⟨rfl, rfl, rfl, rfl, h1, ?_, ?_, ?_,
        fun _ => ⟨sz, rdr, h2, rfl⟩⟩
      · rw [h2]; rfl
      · simp only [h4, Except.map]
      · intro htrue; exact absurd htrue (by simp)
  | tag => simp [fileParts] at h3

/-- A successful Tree.Open goes through NewFile on the cleaned name, with
the snapshot commit as starting point, in both the root and the non-root
branch. -/
theorem open_via_newFile {t : Tree} {name : String} {o : Object}
    (h : t.Open name = .ok o) :
    ∃ hs md, NewFile t.hash hs t.repo (Path.clean name) md = .ok o := by
  unfold Tree.Open at h
  split at h
  · exact ⟨t.hash, .dir, h⟩
  · split at h
    · split at h <;> exact absurd h (by simp)
    · exact ⟨_, _, h⟩

/-- C1: for every successfully opened path, the entry's full logical name is
the cleaned path and its modification time is the author timestamp of the
first commit of the history traversal that starts at the snapshot's commit
and is filtered as logOptionsFor prescribes: FileName = the entry's full
path for file entries, PathFilter = HasPrefix of the entry's full path for
directory entries, and no filter at all for the root dot. -/
theorem C1_modtime_first_filtered_commit :
    ∀ (t : Tree) (name : String) (o : Object),
    t.Open name = .ok o →
    o.fullName = Path.clean name ∧
    Except.map (fun c => c.author.when)
      (t.repo.logFirst (logOptionsFor t.hash o.isDir o.fullName)) =
      .ok o.modTime := by
  intro t name o h
  obtain ⟨hs, md, hnf⟩ := open_via_newFile h
  obtain ⟨_, _, _, hfn, _, _, hlog, _, _⟩ := newFile_ok hnf
  exact ⟨hfn, by rw [hfn]; exact hlog⟩

/-- C1 witness: opening a.go on the example snapshot; its modification time
is the author timestamp (100) of the traversal's first commit. -/
theorem C1_witness :
    oA.fullName = Path.clean "a.go" ∧
    Except.map (fun c => c.author.when)
      (exTree.repo.logFirst (logOptionsFor exTree.hash oA.isDir oA.fullName))
      = .ok oA.modTime :=
  C1_modtime_first_filtered_commit exTree "a.go" oA rfl

/-- C4: for every successfully opened path, Stat returns the entry itself,
the is-directory flag holds exactly when the fetched object is
directory-like (a tree or a commit), and a directory entry reports size
zero. -/
theorem C4_isdir_iff_dirlike :
    ∀ (t : Tree) (name : String) (o : Object),
    t.Open name = .ok o →
    o.Stat = .ok o ∧
    o.isDir = isDirLike (t.repo.getObject o.hash) ∧
    (o.isDir = true → o.size = 0) := by
  intro t name o h
  obtain ⟨hs, md, hnf⟩ := open_via_newFile h
  obtain ⟨_, hh, _, _, _, hdir, _, hdt, _⟩ := newFile_ok hnf
  exact ⟨rfl, by rw [hh]; exact hdir, fun hd => (hdt hd).1⟩

/-- C4 witness: the docs entry of the example snapshot is a directory (its
object is a tree) of size zero. -/
theorem C4_witness :
    docsH.isDir = isDirLike (exTree.repo.getObject docsH.hash) ∧
    docsH.size = 0 := by
  have h := C4_isdir_iff_dirlike exTree "docs" docsH rfl
  exact ⟨h.2.1, h.2.2 rfl⟩

/-- C5: on any input where both constructors succeed, the light
(metadata-only) and heavy (content-bearing) entries agree on every
stat-level field, and the light entry populates neither the content stream
nor the child cursor (its construction never touches the blob reader:
fileInfoParts discards it). -/
theorem C5_light_heavy_agree :
    ∀ (cm h : Hash) (repo : Repo) (fn : String) (md : FileMode)
      (a b : Object),
    NewFileInfo cm h repo fn md = .ok a →
    NewFile cm h repo fn md = .ok b →
    a.Name = b.Name ∧ a.size = b.size ∧ a.mode = b.mode ∧
    a.modTime = b.modTime ∧ a.isDir = b.isDir ∧ a.r = none ∧ a.te = [] := by
  intro cm h repo fn md a b ha hb
  obtain ⟨_, _, _, hafn, ham, hadir, halog, hadt, hadf, har, hate⟩ :=
    newFileInfo_ok ha
  obtain ⟨_, _, _, hbfn, hbm, hbdir, hblog, hbdt, hbdf⟩ := newFile_ok hb
  have hdir : a.isDir = b.isDir := by rw [hadir, hbdir]
  have hmode : a.mode = b.mode :=
    Except.ok.inj (ham.symm.trans hbm)
  have hmt : a.modTime = b.modTime := by
    rw [hdir] at halog
    exact Except.ok.inj (halog.symm.trans hblog)
  have hsz : a.size = b.size := by
    cases hd : a.isDir with
    | true =>
      have hbd : b.isDir = true := hdir ▸ hd
      rw [hadt hd, (hbdt hbd).1]
    | false =>
      have hbd : b.isDir = false := hdir ▸ hd
      obtain ⟨sz, rdr, hga, hsa⟩ := hadf hd
      obtain ⟨sz', rdr', hgb, hsb⟩ := hbdf hbd
      have : GitObject.blob sz rdr = GitObject.blob sz' rdr' :=
        Except.ok.inj (hga.symm.trans hgb)
      obtain ⟨h1, _⟩ := GitObject.blob.inj this
      rw [hsa, hsb, h1]
  have hnm : a.Name = b.Name := by
    unfold Object.Name
    rw [hafn, hbfn]
  exact ⟨hnm, hsz, hmode, hmt, hdir, har, hate⟩

/-- C5 witness: light and heavy construction of a.go on the example
repository agree on all stat fields; the light entry has no stream. -/
theorem C5_witness :
    aL.Name = oA.Name ∧ aL.size = oA.size ∧ aL.mode = oA.mode ∧
    aL.modTime = oA.modTime ∧ aL.isDir = oA.isDir ∧ aL.r = none ∧
    aL.te = [] :=
  C5_light_heavy_agree 1 11 exRepo "a.go" .regular aL oA rfl rfl

/-- C9: Read on a directory entry fails with fs.ErrPermission and leaves the
entry unchanged (no bytes are produced), and ReadDir on a non-directory
entry fails with fs.ErrPermission and leaves the entry unchanged (no entries
are produced). -/
theorem C9_wrong_kind_permission :
    ∀ (d f : Object) (n : Nat) (m : Int),
    d.isDir = true → f.isDir = false →
    d.Read n = (.error .permission, d) ∧
    (f.ReadDir m).1 = .error .permission ∧ (f.ReadDir m).2 = f := by
  intro d f n m hd hf
  refine ⟨?_, ?_, ?_⟩
  · unfold Object.Read
    rw [if_pos hd]
  · unfold Object.ReadDir
    rw [if_pos (by rw [hf])]
  · unfold Object.ReadDir
    rw [if_pos (by rw [hf])]

/-- C9 witness: reading the docs directory entry and listing the a.go file
entry both fail with the permission error. -/
theorem C9_witness :
    docsL.Read 4 = (.error .permission, docsL) ∧
    (oA.ReadDir 7).1 = .error .permission := by
  have h := C9_wrong_kind_permission docsL oA 4 7 rfl rfl
  exact ⟨h.1, h.2.1⟩

/-- Inverting a failed Except bind. -/
theorem eBind_error {ε α β : Type} {x : Except ε α} {f : α → Except ε β}
    {e : ε} (h : x >>= f = .error e) :
    x = .error e ∨ ∃ a, x = .ok a ∧ f a = .error e := by
  cases x with
  | ok a => exact Or.inr ⟨a, rfl, h⟩
  | error e1 =>
    left
    have : e1 = e := by simpa [Bind.bind, Except.bind] using h
    rw [this]

/-- The possible sources of a NewFile failure: mode translation, the object
fetch, the object classification (including the commit-tree fetch and the
blob reader), or the history lookup. -/
theorem newFile_error {cm h : Hash} {repo : Repo} {fn : String}
    {md : FileMode} {e : GoError} (hh : NewFile cm h repo fn md = .error e) :
    toOSFileMode md = .error e ∨ repo.getObject h = .error e ∨
    (∃ obj, repo.getObject h = .ok obj ∧ fileParts repo obj = .error e) ∨
    (∃ b, repo.logFirst (logOptionsFor cm b fn) = .error e) := by
  unfold NewFile at hh
  rcases eBind_error hh with h1 | ⟨osMode, h1, hh⟩
  · exact Or.inl h1
  rcases eBind_error hh with h2 | ⟨obj, h2, hh⟩
  · exact Or.inr (Or.inl h2)
  rcases eBind_error hh with h3 | ⟨parts, h3, hh⟩
  · exact Or.inr (Or.inr (Or.inl ⟨obj, h2, h3⟩))
  rcases eBind_error hh with h4 | ⟨c, h4, hh⟩
  · exact Or.inr (Or.inr (Or.inr ⟨parts.2.1, h4⟩))
  · exact absurd hh (by simp)

/-- ReadDir on a non-directory entry. -/
theorem readDir_not_dir {o : Object} {n : Int} (hf : o.isDir = false) :
    o.ReadDir n = (.error .permission, o) := by
  unfold Object.ReadDir
  rw [if_pos hf]

/-- ReadDir on a directory whose cursor is empty. -/
theorem readDir_dir_empty {o : Object} {n : Int} (hd : o.isDir = true)
    (he : o.te = []) : o.ReadDir n = (.error .eof, o) := by
  unfold Object.ReadDir
  rw [if_neg (by simp [hd]), if_pos (by simp [he])]

/-- ReadDir on a directory with a nonempty cursor: slice the consumed prefix
off and materialize it. -/
theorem readDir_dir_nonempty {o : Object} {n : Int} (hd : o.isDir = true)
    (hne : o.te ≠ []) :
    o.ReadDir n =
      (match childrenInfos o.commit o.repo o.fullName
          (o.te.take (readLimit o.te.length n)) with
        | .ok ret =>
          (.ok ret, { o with te := o.te.drop (readLimit o.te.length n) })
        | .error e =>
          (.error e, { o with te := o.te.drop (readLimit o.te.length n) })) := by
  unfold Object.ReadDir
  rw [if_neg (by simp [hd]), if_neg (by simp [hne])]

/-- A zero maxCount consumes nothing. -/
theorem readLimit_zero (len : Nat) : readLimit len 0 = 0 := by
  unfold readLimit
  rw [if_neg]
  · rfl
  · rintro (h | h)
    · exact lt_irrefl 0 h
    · exact (Int.natCast_nonneg len).not_lt h

/-- ReadDir never consumes more than the cursor holds. -/
theorem readLimit_le (len : Nat) (n : Int) : readLimit len n ≤ len := by
  unfold readLimit
  split
  · exact le_refl len
  · rename_i hcond
    rw [not_or] at hcond
    exact Int.toNat_le.mpr (le_of_not_lt hcond.2)

/-- When every child of a list materializes, the whole loop succeeds. -/
theorem childrenInfos_ok_of_forall {cm : Hash} {repo : Repo} {fn : String} :
    ∀ {l : List TreeEntry},
    (∀ v ∈ l, ∃ x,
      NewFileInfo cm v.hash repo (Path.join2 fn v.name) v.mode = .ok x) →
    ∃ out, childrenInfos cm repo fn l = .ok out := by
  intro l
  induction l with
  | nil => exact fun _ => ⟨[], rfl⟩
  | cons v vs ih =>
    intro hall
    obtain ⟨x, hx⟩ := hall v (List.mem_cons_self v vs)
    obtain ⟨out, hout⟩ := ih (fun w hw => hall w (List.mem_cons_of_mem v hw))
    refine ⟨x :: out, ?_⟩
    unfold childrenInfos
    rw [hx]
    simp [Bind.bind, Except.bind, hout]

/-- The example store never produces the fs.ErrNotExist sentinel. -/
theorem exStore_no_notExist : ∀ h, exRepo.getObject h ≠ .error .notExist := by
  intro h hh
  have hh' : exStore h = .error .notExist := hh
  unfold exStore at hh'
  split_ifs at hh'
  all_goals simp_all

/-- The example history traversal never produces fs.ErrNotExist. -/
theorem exLog_no_notExist : ∀ lo, exRepo.logFirst lo ≠ .error .notExist := by
  intro lo hh
  simp [exRepo] at hh

/-- Every blob reader of the example store succeeds. -/
theorem exStore_blob_reader :
    ∀ h sz rdr, exRepo.getObject h = .ok (.blob sz rdr) →
    rdr ≠ .error .notExist := by
  intro h sz rdr hh hr
  subst hr
  have hh' : exStore h = .ok (.blob sz (.error .notExist)) := hh
  unfold exStore at hh'
  split_ifs at hh' <;> simp_all

/-- C3: evaluating the code at the failing input.  On a snapshot whose root
tree has no entry named missing, Open of the two-segment path missing/path
fails inside FindEntry with go-git's directory-not-found sentinel, which
Open passes through unchanged instead of mapping it to the designated
NotExist error — only the entry-not-found and file-not-found sentinels (the
single-segment case, also evaluated here) are mapped. -/
theorem C3_missing_segment_eval :
    exTree.Open "missing/path" = .error .directoryNotFound ∧
    GoError.directoryNotFound ≠ GoError.notExist ∧
    exTree.Open "missing" = .error .notExist :=
  ⟨rfl, by decide, rfl⟩

/-- C6 counterexample: the claim's characterization of end-of-sequence
(exactly when the cursor is empty AND maxCount is nonzero) is false at
maxCount zero on an empty-cursored directory entry — ReadDir checks the
cursor before the count and signals io.EOF although maxCount is zero. -/
theorem C6_counterexample :
    docsL.isDir = true ∧ docsL.te = [] ∧
    (docsL.ReadDir 0).1 = .error .eof ∧ (0 : Int) = 0 :=
  ⟨rfl, rfl, rfl, rfl⟩

/-- C6 amended: when every remaining child materializes, ReadDir on a
directory signals end-of-sequence exactly when the cursor is empty —
regardless of maxCount, including maxCount zero — and a maxCount-zero call
with entries remaining returns an empty successful result and leaves the
entry unchanged. -/
theorem C6_amended :
    ∀ (o : Object) (n : Int), o.isDir = true →
    (∀ v ∈ o.te, ∃ x,
      NewFileInfo o.commit v.hash o.repo (Path.join2 o.fullName v.name)
        v.mode = .ok x) →
    (((o.ReadDir n).1 = .error .eof) ↔ o.te = []) ∧
    (o.te ≠ [] → n = 0 →
      (o.ReadDir n).1 = .ok [] ∧ (o.ReadDir n).2 = o) := by
  intro o n hd hall
  constructor
  · constructor
    · intro heof
      by_contra hne
      rw [readDir_dir_nonempty hd hne] at heof
      obtain ⟨out, hout⟩ :=
        childrenInfos_ok_of_forall
          (fun v hv => hall v (List.take_subset _ _ hv))
      rw [hout] at heof
      simp at heof
    · intro he
      rw [readDir_dir_empty hd he]
  · intro hne hn0
    subst hn0
    rw [readDir_dir_nonempty hd hne, readLimit_zero]
    simp only [List.take_zero, List.drop_zero, childrenInfos]
    exact ⟨trivial, trivial⟩

/-- C6 witness: on the example root directory handle, a maxCount-zero call
returns an empty successful batch and changes nothing. -/
theorem C6_witness :
    (rootObj.ReadDir 0).1 = .ok [] ∧ (rootObj.ReadDir 0).2 = rootObj := by
  have h := C6_amended rootObj 0 rfl
    (by
      intro v hv
      have hv' : v = (⟨"a.go", .regular, 11⟩ : TreeEntry) ∨
          v = (⟨"docs", .dir, 12⟩ : TreeEntry) := by
        simpa [rootObj, exEntries] using hv
      rcases hv' with h1 | h1 <;> subst h1
      · exact ⟨aL, rfl⟩
      · exact ⟨docsL, rfl⟩)
  exact h.2 (by simp [rootObj, exEntries]) rfl

/-- C8 counterexample: opening the root of the example snapshot succeeds
(so it is a directory entry), but its hash is the commit identifier 1
itself, not the commit's tree 2 as the claim states. -/
theorem C8_counterexample :
    exTree.Open "." = .ok rootObj ∧
    exRepo.getObject exTree.hash = .ok (.commit 2) ∧
    rootObj.hash = exTree.hash ∧ rootObj.hash ≠ 2 :=
  ⟨rfl, rfl, rfl, by decide⟩

/-- C8 amended: opening any name that cleans to the root dot never yields
NotExist (provided the store, the blob readers and the history traversal
never themselves produce that sentinel — Open itself introduces it only in
the non-root branch), and a successful open of the root materializes the
commit object itself: hash and commit fields are both the commit
identifier (not the commit's tree), the mode is the directory mode, and the
entry is a directory whenever the object stored at the commit identifier is
commit- or tree-like. -/
theorem C8_amended :
    ∀ (t : Tree) (name : String) (o : Object),
    Path.clean name = "." →
    (∀ h, t.repo.getObject h ≠ .error .notExist) →
    (∀ lo, t.repo.logFirst lo ≠ .error .notExist) →
    (∀ h sz rdr, t.repo.getObject h = .ok (.blob sz rdr) →
      rdr ≠ .error .notExist) →
    t.Open name ≠ .error .notExist ∧
    (t.Open name = .ok o →
      o.hash = t.hash ∧ o.commit = t.hash ∧ o.fullName = "." ∧
      o.mode = modePerm + modeDir ∧
      o.isDir = isDirLike (t.repo.getObject t.hash)) := by
  intro t name o hclean hstore hlog hblob
  constructor
  · intro habs
    rw [Tree.Open, if_pos hclean, hclean] at habs
    rcases newFile_error habs with h1 | h1 | ⟨obj, hobj, h1⟩ | ⟨b, h1⟩
    · simp [toOSFileMode] at h1
    · exact hstore t.hash h1
    · cases obj with
      | tree es => simp [fileParts] at h1
      | commit th =>
        simp only [fileParts] at h1
        cases hg : getTree t.repo th with
        | error e1 =>
          rw [hg] at h1
          have he1 : e1 = .notExist := Except.error.inj h1
          subst he1
          unfold getTree at hg
          cases hg2 : t.repo.getObject th with
          | error e2 =>
            rw [hg2] at hg
            exact hstore th (by rw [Except.error.inj hg] at hg2; exact hg2)
          | ok g =>
            rw [hg2] at hg
            cases g <;> simp_all
        | ok es => rw [hg] at h1; simp at h1
      | blob sz rdr =>
        simp only [fileParts] at h1
        cases hr : rdr with
        | error e1 =>
          rw [hr] at h1
          have he1 : e1 = .notExist := Except.error.inj h1
          subst he1
          exact hblob t.hash sz rdr hobj hr
        | ok bs => rw [hr] at h1; simp at h1
      | tag =>
        simp only [fileParts] at h1
        exact absurd (Except.error.inj h1) (by decide)
    · exact hlog _ h1
  · intro hok
    rw [Tree.Open, if_pos hclean, hclean] at hok
    obtain ⟨hc, hh, _, hfn, hm, hdir, _, _, _⟩ := newFile_ok hok
    refine ⟨hh, hc, hfn, ?_, hdir⟩
    exact (Except.ok.inj hm).symm

/-- C8 witness: opening the root of the example snapshot is not NotExist,
and the materialized root entry carries the commit hash and directory
mode. -/
theorem C8_witness :
    exTree.Open "." ≠ .error .notExist ∧
    rootObj.hash = exTree.hash ∧ rootObj.mode = modePerm + modeDir := by
  have h := C8_amended exTree "." rootObj rfl exStore_no_notExist
    exLog_no_notExist exStore_blob_reader
  exact ⟨h.1, (h.2 rfl).1, (h.2 rfl).2.2.2.1⟩

/-- One step of a ReadDir call sequence. -/
theorem runReadDir_cons (o : Object) (n : Int) (ns : List Int) :
    runReadDir o (n :: ns) =
      ((match (o.ReadDir n).1 with | .ok l => l | .error _ => []) ++
         (runReadDir (o.ReadDir n).2 ns).1,
       (runReadDir (o.ReadDir n).2 ns).2) := rfl

/-- Building the materialization loop one child at a time. -/
theorem childrenInfos_cons_ok {cm : Hash} {repo : Repo} {fn : String}
    {v : TreeEntry} {vs : List TreeEntry} {fi : Object} {rest : List Object}
    (hfi : NewFileInfo cm v.hash repo (Path.join2 fn v.name) v.mode = .ok fi)
    (hrest : childrenInfos cm repo fn vs = .ok rest) :
    childrenInfos cm repo fn (v :: vs) = .ok (fi :: rest) := by
  simp only [childrenInfos, hfi, hrest, Bind.bind, Except.bind]

/-- Inverting one successful step of the materialization loop. -/
theorem childrenInfos_cons_inv {cm : Hash} {repo : Repo} {fn : String}
    {v : TreeEntry} {vs : List TreeEntry} {out : List Object}
    (h : childrenInfos cm repo fn (v :: vs) = .ok out) :
    ∃ fi rest,
      NewFileInfo cm v.hash repo (Path.join2 fn v.name) v.mode = .ok fi ∧
      childrenInfos cm repo fn vs = .ok rest ∧ out = fi :: rest := by
  unfold childrenInfos at h
  obtain ⟨fi, hfi, h⟩ := eBind_ok h
  obtain ⟨rest, hrest, h⟩ := eBind_ok h
  exact ⟨fi, rest, hfi, hrest, (Except.ok.inj h).symm⟩

/-- The materialization loop distributes over appending child lists. -/
theorem childrenInfos_append {cm : Hash} {repo : Repo} {fn : String} :
    ∀ {l₁ l₂ : List TreeEntry} {o₁ o₂ : List Object},
    childrenInfos cm repo fn l₁ = .ok o₁ →
    childrenInfos cm repo fn l₂ = .ok o₂ →
    childrenInfos cm repo fn (l₁ ++ l₂) = .ok (o₁ ++ o₂) := by
  intro l₁
  induction l₁ with
  | nil =>
    intro l₂ o₁ o₂ h1 h2
    have h0 : ([] : List Object) = o₁ := Except.ok.inj h1
    rw [← h0]
    simpa using h2
  | cons v vs ih =>
    intro l₂ o₁ o₂ h1 h2
    obtain ⟨fi, rest, hfi, hrest, hout⟩ := childrenInfos_cons_inv h1
    subst hout
    rw [List.cons_append, List.cons_append]
    exact childrenInfos_cons_ok hfi (ih hrest h2)

/-- A successful materialization of an appended list splits. -/
theorem childrenInfos_split {cm : Hash} {repo : Repo} {fn : String} :
    ∀ {l₁ l₂ : List TreeEntry} {out : List Object},
    childrenInfos cm repo fn (l₁ ++ l₂) = .ok out →
    ∃ o₁ o₂, childrenInfos cm repo fn l₁ = .ok o₁ ∧
      childrenInfos cm repo fn l₂ = .ok o₂ ∧ out = o₁ ++ o₂ := by
  intro l₁
  induction l₁ with
  | nil => exact fun h => ⟨[], _, rfl, h, rfl⟩
  | cons v vs ih =>
    intro l₂ out h
    rw [List.cons_append] at h
    obtain ⟨fi, rest, hfi, hrest, hout⟩ := childrenInfos_cons_inv h
    obtain ⟨o₁, o₂, h1, h2, h3⟩ := ih hrest
    refine ⟨fi :: o₁, o₂, childrenInfos_cons_ok hfi h1, h2, ?_⟩
    rw [hout, h3, List.cons_append]

/-- The materialization loop is length preserving. -/
theorem childrenInfos_length {cm : Hash} {repo : Repo} {fn : String} :
    ∀ {l : List TreeEntry} {out : List Object},
    childrenInfos cm repo fn l = .ok out → out.length = l.length := by
  intro l
  induction l with
  | nil =>
    intro out h
    rw [← Except.ok.inj h]
    rfl
  | cons v vs ih =>
    intro out h
    obtain ⟨fi, rest, _, hrest, hout⟩ := childrenInfos_cons_inv h
    subst hout
    simp [ih hrest]

/-- A failing child anywhere in the list makes the loop fail. -/
theorem childrenInfos_error_of_mem {cm : Hash} {repo : Repo} {fn : String} :
    ∀ {l : List TreeEntry},
    (∃ v ∈ l,
      okB (NewFileInfo cm v.hash repo (Path.join2 fn v.name) v.mode) =
        false) →
    okB (childrenInfos cm repo fn l) = false := by
  intro l
  induction l with
  | nil =>
    rintro ⟨v, hv, _⟩
    exact absurd hv (List.not_mem_nil v)
  | cons w ws ih =>
    rintro ⟨v, hv, hbad⟩
    rcases List.mem_cons.mp hv with h1 | h1
    · subst h1
      cases hx : NewFileInfo cm v.hash repo (Path.join2 fn v.name) v.mode with
      | ok x => rw [hx] at hbad; simp [okB] at hbad
      | error e =>
        unfold childrenInfos
        rw [hx]
        simp [okB, Bind.bind, Except.bind]
    · cases hx : NewFileInfo cm w.hash repo (Path.join2 fn w.name) w.mode with
      | error e =>
        unfold childrenInfos
        rw [hx]
        simp [okB, Bind.bind, Except.bind]
      | ok x =>
        have htail := ih ⟨v, h1, hbad⟩
        unfold childrenInfos
        rw [hx]
        simp only [Bind.bind, Except.bind]
        cases hts : childrenInfos cm repo fn ws with
        | ok out => rw [hts] at htail; simp [okB] at htail
        | error e => simp [okB]

/-- Any sequence of ReadDir calls on a directory whose children all
materialize returns a prefix of the full materialized child list and leaves
the corresponding suffix of the cursor. -/
theorem runReadDir_ok :
    ∀ (ns : List Int) (o : Object) (objs : List Object),
    o.isDir = true →
    childrenInfos o.commit o.repo o.fullName o.te = .ok objs →
    ∃ N, (runReadDir o ns).1 = objs.take N ∧
      (runReadDir o ns).2 = { o with te := o.te.drop N } := by
  intro ns
  induction ns with
  | nil =>
    intro o objs hd hci
    refine ⟨0, by simp [runReadDir], ?_⟩
    simp only [runReadDir, List.drop_zero]
  | cons n ns ih =>
    intro o objs hd hci
    by_cases hne : o.te = []
    · have hobjs : objs = [] := by
        rw [hne] at hci
        exact (Except.ok.inj hci).symm
      subst hobjs
      have hrd : o.ReadDir n = (.error .eof, o) := readDir_dir_empty hd hne
      obtain ⟨N, h1, h2⟩ := ih o [] hd (by rw [hne]; rfl)
      refine ⟨N, ?_, ?_⟩
      · rw [runReadDir_cons, hrd]
        simpa using h1
      · rw [runReadDir_cons, hrd]
        exact h2
    · rw [(List.take_append_drop (readLimit o.te.length n) o.te).symm] at hci
      obtain ⟨o₁, o₂, hciL, hciR, hobjs⟩ := childrenInfos_split hci
      have hlen1 : o₁.length = readLimit o.te.length n := by
        rw [childrenInfos_length hciL, List.length_take]
        exact Nat.min_eq_left (readLimit_le _ _)
      have hrd2 : o.ReadDir n =
          (.ok o₁, { o with te := o.te.drop (readLimit o.te.length n) }) := by
        rw [readDir_dir_nonempty hd hne, hciL]
      obtain ⟨N', h1', h2'⟩ :=
        ih { o with te := o.te.drop (readLimit o.te.length n) } o₂ hd hciR
      refine ⟨readLimit o.te.length n + N', ?_, ?_⟩
      · rw [runReadDir_cons, hrd2]
        dsimp only
        rw [h1', hobjs, List.take_add, List.take_left' hlen1,
          List.drop_left' hlen1]
      · rw [runReadDir_cons, hrd2]
        dsimp only
        rw [h2']
        dsimp only
        rw [List.drop_drop]

/-- The entries any sequence of ReadDir calls returns are the
materializations of a sublist of the handle's cursor. -/
theorem runReadDir_outputs :
    ∀ (ns : List Int) (o : Object),
    ∃ l, List.Sublist l o.te ∧
      childrenInfos o.commit o.repo o.fullName l =
        .ok (runReadDir o ns).1 := by
  intro ns
  induction ns with
  | nil => exact fun o => ⟨[], List.nil_sublist _, rfl⟩
  | cons n ns ih =>
    intro o
    cases hd : o.isDir with
    | false =>
      obtain ⟨l, hsub, hl⟩ := ih o
      refine ⟨l, hsub, ?_⟩
      rw [runReadDir_cons, readDir_not_dir hd]
      simpa using hl
    | true =>
      by_cases hne : o.te = []
      · obtain ⟨l, hsub, hl⟩ := ih o
        refine ⟨l, hsub, ?_⟩
        rw [runReadDir_cons, readDir_dir_empty hd hne]
        simpa using hl
      · cases hci : childrenInfos o.commit o.repo o.fullName
            (o.te.take (readLimit o.te.length n)) with
        | ok ret =>
          have hrd2 : o.ReadDir n =
              (.ok ret,
                { o with te := o.te.drop (readLimit o.te.length n) }) := by
            rw [readDir_dir_nonempty hd hne, hci]
          obtain ⟨l₂, hsub₂, hl₂⟩ :=
            ih { o with te := o.te.drop (readLimit o.te.length n) }
          refine ⟨o.te.take (readLimit o.te.length n) ++ l₂, ?_, ?_⟩
          · have h1 :=
              List.Sublist.append
                (List.Sublist.refl (o.te.take (readLimit o.te.length n)))
                hsub₂
            rwa [List.take_append_drop] at h1
          · rw [runReadDir_cons, hrd2]
            dsimp only
            exact childrenInfos_append hci hl₂
        | error e =>
          have hrd2 : o.ReadDir n =
              (.error e,
                { o with te := o.te.drop (readLimit o.te.length n) }) := by
            rw [readDir_dir_nonempty hd hne, hci]
          obtain ⟨l₂, hsub₂, hl₂⟩ :=
            ih { o with te := o.te.drop (readLimit o.te.length n) }
          refine ⟨l₂, ?_, ?_⟩
          · exact hsub₂.trans (List.drop_sublist _ _)
          · rw [runReadDir_cons, hrd2]
            simpa using hl₂

/-- C2: for a directory handle whose k children all materialize (to objs,
in stored order), any sequence of ReadDir calls with arbitrary per-call
maxCounts that ends with an exhausted cursor returns, concatenated across
the calls, exactly objs: each child exactly once, in the originally stored
order, however the maxCounts are chosen. -/
theorem C2_pagination_exact_once :
    ∀ (o : Object) (ns : List Int) (objs : List Object),
    o.isDir = true →
    childrenInfos o.commit o.repo o.fullName o.te = .ok objs →
    (runReadDir o ns).2.te = [] →
    (runReadDir o ns).1 = objs := by
  intro o ns objs hd hci hex
  obtain ⟨N, h1, h2⟩ := runReadDir_ok ns o objs hd hci
  have hdrop : o.te.drop N = [] := by
    rw [h2] at hex
    simpa using hex
  have hlen : o.te.length ≤ N := List.drop_eq_nil_iff.mp hdrop
  rw [h1]
  exact List.take_of_length_le (by rw [childrenInfos_length hci]; exact hlen)

/-- C2 witness: reading the example root directory with maxCounts 1 then -1
exhausts the cursor and returns a.go then docs, each exactly once, in
stored order. -/
theorem C2_witness :
    (runReadDir rootObj [1, -1]).1 = [aL, docsL] ∧
    (runReadDir rootObj [1, -1]).2.te = [] := by
  have h := C2_pagination_exact_once rootObj [1, -1] [aL, docsL] rfl rfl
    (by decide)
  exact ⟨h, by decide⟩

/-- C7: when some child in the prefix a ReadDir call consumes fails to
materialize, the call does not succeed — the Go loop returns a nil entry
slice together with the error, so no partial batch is handed out. -/
theorem C7_atomic_failure :
    ∀ (o : Object) (n : Int),
    o.isDir = true →
    (∃ v ∈ o.te.take (readLimit o.te.length n),
      okB (NewFileInfo o.commit v.hash o.repo (Path.join2 o.fullName v.name)
        v.mode) = false) →
    okB (o.ReadDir n).1 = false := by
  intro o n hd hv
  by_cases hne : o.te = []
  · rw [readDir_dir_empty hd hne]
    rfl
  · have hci := childrenInfos_error_of_mem hv
    cases hcis : childrenInfos o.commit o.repo o.fullName
        (o.te.take (readLimit o.te.length n)) with
    | ok out => rw [hcis] at hci; simp [okB] at hci
    | error e =>
      have hrd : o.ReadDir n =
          (.error e, { o with te := o.te.drop (readLimit o.te.length n) }) := by
        rw [readDir_dir_nonempty hd hne, hcis]
      rw [hrd]
      rfl

/-- C7 witness: listing the handle whose first child's hash is absent from
the store fails as a whole. -/
theorem C7_witness : okB (oBad.ReadDir 1).1 = false :=
  C7_atomic_failure oBad 1 rfl ⟨⟨"x", .regular, 50⟩, by decide, rfl⟩

/-- C10: when a ReadDir call fails because a consumed child fails to
materialize, the whole consumed prefix — including children never handed to
the caller — is permanently removed from the cursor: the call returns the
error, the surviving cursor is the suffix after the consumed prefix, and
the entries any subsequent call sequence returns are materializations of a
sublist of that suffix only. -/
theorem C10_failed_call_drops_entries :
    ∀ (o : Object) (n : Int) (ns : List Int) (e : GoError),
    o.isDir = true → o.te ≠ [] →
    childrenInfos o.commit o.repo o.fullName
      (o.te.take (readLimit o.te.length n)) = .error e →
    (o.ReadDir n).1 = .error e ∧
    (o.ReadDir n).2.te = o.te.drop (readLimit o.te.length n) ∧
    ∃ l, List.Sublist l (o.te.drop (readLimit o.te.length n)) ∧
      childrenInfos o.commit o.repo o.fullName l =
        .ok (runReadDir ((o.ReadDir n).2) ns).1 := by
  intro o n ns e hd hne hci
  have hrd : o.ReadDir n =
      (.error e, { o with te := o.te.drop (readLimit o.te.length n) }) := by
    rw [readDir_dir_nonempty hd hne, hci]
  refine ⟨by rw [hrd], by rw [hrd], ?_⟩
  obtain ⟨l, hsub, hl⟩ := runReadDir_outputs ns ((o.ReadDir n).2)
  have hte : (o.ReadDir n).2.te = o.te.drop (readLimit o.te.length n) := by
    rw [hrd]
  have hc : (o.ReadDir n).2.commit = o.commit := by rw [hrd]
  have hr : (o.ReadDir n).2.repo = o.repo := by rw [hrd]
  have hf : (o.ReadDir n).2.fullName = o.fullName := by rw [hrd]
  rw [hte] at hsub
  rw [hc, hr, hf] at hl
  exact ⟨l, hsub, hl⟩

/-- C10 witness: the failing call on the bad handle consumes its first
child (hash 50, absent from the store), errors, and leaves only the second
child in the cursor. -/
theorem C10_witness :
    (oBad.ReadDir 1).1 = .error .objectNotFound ∧
    (oBad.ReadDir 1).2.te = [⟨"a.go", .regular, 11⟩] := by
  have h := C10_failed_call_drops_entries oBad 1 [] .objectNotFound rfl
    (by decide) rfl
  refine ⟨h.1, ?_⟩
  rw [h.2.1]
  decide

end Gitfs
